import Mathlib

/-!
Shallow embedding of the future-price projection core of the btc-dashboard
repository: `interpolate_price_between_anchors`, `add_bitcoin_volatility` and
the projection part of `calculate_future_price` from `src/forecasting.py`,
together with the constants of `src/config.py`.

Modelling conventions:
* Python integers (years, months, seeds) are `ℤ`; Python floats are `ℝ`;
  `np.log` / `np.exp` / `np.sin` are `Real.log` / `Real.exp` / `Real.sin`.
  Mathlib's `Real.log` is total (it equals `log |x|`, with `log 0 = 0`), which
  stands in for the NaN that numpy produces on nonpositive arguments.
* The anchor dict `FORECAST_ANCHORS` is an association list `List (ℤ × ℝ)`;
  the module-level constants become explicit parameters `anchors` and
  `max_price` so that table-generic claims can be stated.  `sorted(keys)` is
  `List.insertionSort (· ≤ ·)`; dict membership is `(anchors.lookup y).isSome`;
  `FORECAST_ANCHORS[y]` is `anchorPrice` (total, with junk value 0 off-domain,
  standing in for Python's KeyError).  Python list indexing `xs[0]`, `xs[-1]`,
  `xs[-2]` becomes `List.getD` at positions `0`, `length - 1`, `length - 2`
  (total, with junk value 0 where Python would raise IndexError).
* `datetime.now().year` becomes the explicit parameter `current_year`, and the
  externally fetched current BTC price the parameter `current_price`.
* Python's truthiness test `if lower_anchor and upper_anchor:` on
  `Optional[int]` values is `Option` pattern matching plus a nonzero test
  (`None` and `0` are both falsy in Python).
-/

namespace BtcDashboard

/-- config.py line 63: `FORECAST_ANCHORS = {2030: 800_000, 2040: 2_500_000, 2050: 6_000_000}`. -/
noncomputable def FORECAST_ANCHORS : List (ℤ × ℝ) :=
  [(2030, 800000), (2040, 2500000), (2050, 6000000)]

/-- config.py line 75: `MAX_THEORETICAL_BTC_PRICE = 22_000_000`. -/
noncomputable def MAX_THEORETICAL_BTC_PRICE : ℝ := 22000000

/-- Python dict access `FORECAST_ANCHORS[y]`, total with junk value 0 off-domain. -/
noncomputable def anchorPrice (anchors : List (ℤ × ℝ)) (y : ℤ) : ℝ :=
  (anchors.lookup y).getD 0

/-- The CASE 5 scan of `interpolate_price_between_anchors` (forecasting.py lines 99-103):

`for i in range(len(anchor_years) - 1):`
`    if anchor_years[i] < target_year < anchor_years[i + 1]: ...; break`

returning the first adjacent pair that strictly brackets `target_year`. -/
def findBracket (target_year : ℤ) : List ℤ → Option (ℤ × ℤ)
  | a :: b :: rest =>
      if a < target_year ∧ target_year < b then some (a, b)
      else findBracket target_year (b :: rest)
  | _ => none

/-- forecasting.py lines 30-124, `interpolate_price_between_anchors`, with the
module constants `FORECAST_ANCHORS` / `MAX_THEORETICAL_BTC_PRICE` and the value
of `datetime.now().year` passed explicitly as `anchors`, `max_price`,
`current_year`. -/
noncomputable def interpolate_price_between_anchors
    (anchors : List (ℤ × ℝ)) (max_price : ℝ) (current_year : ℤ)
    (current_price : ℝ) (target_year : ℤ) : ℝ :=
  let anchor_years : List ℤ := (anchors.map Prod.fst).insertionSort (· ≤ ·)
  -- CASE 1: Target year is at or before current year
  if target_year ≤ current_year then
    current_price
  -- CASE 2: Target year matches an anchor point exactly
  else if (anchors.lookup target_year).isSome then
    let years_to_target : ℤ := target_year - current_year
    let growth_rate : ℝ :=
      Real.log (anchorPrice anchors target_year / current_price) / (years_to_target : ℝ)
    let projected : ℝ := current_price * Real.exp (growth_rate * (years_to_target : ℝ))
    min projected max_price
  else
    -- CASE 3: Target year is before first anchor
    let first_anchor : ℤ := anchor_years.getD 0 0
    if target_year < first_anchor then
      let years_to_anchor : ℤ := first_anchor - current_year
      let years_to_target : ℤ := target_year - current_year
      let growth_rate : ℝ :=
        Real.log (anchorPrice anchors first_anchor / current_price) / (years_to_anchor : ℝ)
      let projected : ℝ := current_price * Real.exp (growth_rate * (years_to_target : ℝ))
      min projected max_price
    else
      -- CASE 4: Target year is after last anchor
      let last_anchor : ℤ := anchor_years.getD (anchor_years.length - 1) 0
      if last_anchor < target_year then
        let second_last_anchor : ℤ := anchor_years.getD (anchor_years.length - 2) 0
        let years_between : ℤ := last_anchor - second_last_anchor
        let price_ratio : ℝ :=
          anchorPrice anchors last_anchor / anchorPrice anchors second_last_anchor
        let growth_rate : ℝ := Real.log price_ratio / (years_between : ℝ)
        let years_beyond : ℤ := target_year - last_anchor
        let projected : ℝ :=
          anchorPrice anchors last_anchor * Real.exp (growth_rate * (years_beyond : ℝ))
        min projected max_price
      else
        -- CASE 5: Target year is between two anchors
        match findBracket target_year anchor_years with
        | some (lower_anchor, upper_anchor) =>
            if lower_anchor ≠ 0 ∧ upper_anchor ≠ 0 then
              let lower_price : ℝ := anchorPrice anchors lower_anchor
              let upper_price : ℝ := anchorPrice anchors upper_anchor
              let total_years : ℤ := upper_anchor - lower_anchor
              let years_from_lower : ℤ := target_year - lower_anchor
              let position : ℝ := (years_from_lower : ℝ) / (total_years : ℝ)
              let log_lower : ℝ := Real.log lower_price
              let log_upper : ℝ := Real.log upper_price
              let log_interpolated : ℝ := log_lower + position * (log_upper - log_lower)
              let projected : ℝ := Real.exp log_interpolated
              min projected max_price
            else current_price
        | none =>
            -- Fallback: should never reach here
            current_price

/-- Mirrors the guard chain of `interpolate_price_between_anchors` literally:
`true` exactly when control reaches the final `return current_price` fallback
on forecasting.py line 124 (each `false` corresponds to one of the five
handled cases, in the order they appear in the source). -/
def hits_fallback (anchors : List (ℤ × ℝ)) (current_year target_year : ℤ) : Bool :=
  let anchor_years : List ℤ := (anchors.map Prod.fst).insertionSort (· ≤ ·)
  if target_year ≤ current_year then false
  else if (anchors.lookup target_year).isSome then false
  else if target_year < anchor_years.getD 0 0 then false
  else if anchor_years.getD (anchor_years.length - 1) 0 < target_year then false
  else
    match findBracket target_year anchor_years with
    | some (lower_anchor, upper_anchor) =>
        if lower_anchor ≠ 0 ∧ upper_anchor ≠ 0 then false else true
    | none => true

/-- forecasting.py lines 256-296, `add_bitcoin_volatility`.  The `base_price`
argument is accepted, as in the source, but never read. -/
noncomputable def add_bitcoin_volatility
    (target_year target_month : ℤ) (base_price : ℝ) : ℝ :=
  let seed_value : ℤ := target_year * 100 + target_month
  let volatility_1 : ℝ := Real.sin ((seed_value : ℝ) * 0.1) * 0.15
  let volatility_2 : ℝ := Real.sin ((seed_value : ℝ) * 0.23) * 0.08
  let volatility_3 : ℝ := Real.sin ((seed_value : ℝ) * 0.37) * 0.05
  let total_volatility : ℝ := volatility_1 + volatility_2 + volatility_3 + 0.02
  let volatility_factor : ℝ := 1.0 + total_volatility
  let crash_seed : ℤ := (target_year * 17 + target_month * 7) % 100
  let volatility_factor : ℝ :=
    if crash_seed < 3 then volatility_factor * 0.6
    else if crash_seed > 96 then volatility_factor * 1.8
    else volatility_factor
  max 0.5 (min 2.0 volatility_factor)

/-- forecasting.py lines 222-242: the year-level projection followed by the
month-level log-linear refinement of `calculate_future_price` (the
`projected_price` value just before the volatility overlay is applied). -/
noncomputable def refined_price
    (anchors : List (ℤ × ℝ)) (max_price : ℝ) (current_year : ℤ)
    (current_price : ℝ) (target_year target_month : ℤ) : ℝ :=
  let projected_price : ℝ :=
    interpolate_price_between_anchors anchors max_price current_year current_price target_year
  if target_month ≠ 1 then
    let jan_price : ℝ :=
      interpolate_price_between_anchors anchors max_price current_year current_price target_year
    let next_jan_price : ℝ :=
      interpolate_price_between_anchors anchors max_price current_year current_price
        (target_year + 1)
    let month_fraction : ℝ := ((target_month : ℝ) - 1) / 12.0
    let log_jan : ℝ := Real.log jan_price
    let log_next_jan : ℝ := Real.log next_jan_price
    let log_target : ℝ := log_jan + month_fraction * (log_next_jan - log_jan)
    Real.exp log_target
  else projected_price

/-- forecasting.py lines 222-249: the computational core of
`calculate_future_price` after its input guards — interpolation, month
refinement, then `projected_price *= add_bitcoin_volatility(...)`. -/
noncomputable def calculate_future_price_core
    (anchors : List (ℤ × ℝ)) (max_price : ℝ) (current_year : ℤ)
    (current_price : ℝ) (target_year target_month : ℤ) : ℝ :=
  let projected_price : ℝ :=
    refined_price anchors max_price current_year current_price target_year target_month
  projected_price * add_bitcoin_volatility target_year target_month projected_price

/-- forecasting.py lines 204-249, `calculate_future_price` including its two
`return None` guards: the externally fetched price arrives as an
`Option ℝ` and the date comparison `(target_date - current_date).days / 365.25`
arrives as the precomputed real `years_diff` (datetime arithmetic is not
modelled further). -/
noncomputable def calculate_future_price
    (anchors : List (ℤ × ℝ)) (max_price : ℝ) (current_year : ℤ)
    (fetched_price : Option ℝ) (years_diff : ℝ)
    (target_year target_month : ℤ) : Option ℝ :=
  match fetched_price with
  | none => none
  | some current_price =>
      if years_diff < 0 then none
      else
        some (calculate_future_price_core anchors max_price current_year current_price
          target_year target_month)

/-! ## General helper lemmas -/

/-- Every branch of the interpolator either clamps with `min _ max_price` or
returns `current_price` raw, so the output never exceeds
`max current_price max_price`; in particular it is at most `max_price`
whenever `current_price ≤ max_price`. -/
lemma interp_le_max_price (anchors : List (ℤ × ℝ)) (max_price : ℝ) (current_year : ℤ)
    (current_price : ℝ) (target_year : ℤ) (hcp : current_price ≤ max_price) :
    interpolate_price_between_anchors anchors max_price current_year current_price target_year
      ≤ max_price := by
  simp only [interpolate_price_between_anchors]
  split_ifs
  · exact hcp
  · exact min_le_right _ _
  · exact min_le_right _ _
  · exact min_le_right _ _
  · split
    · split_ifs
      · exact min_le_right _ _
      · exact hcp
    · exact hcp

/-- Indices in a `(· ≤ ·)`-sorted list respect the order. -/
lemma sorted_le_of_getElem? {α : Type*} [LinearOrder α] {ys : List α}
    (hs : ys.Sorted (· ≤ ·)) {i j : ℕ} {u v : α}
    (hij : i ≤ j) (hu : ys[i]? = some u) (hv : ys[j]? = some v) : u ≤ v := by
  rcases eq_or_lt_of_le hij with rfl | hlt
  · rw [hu] at hv
    exact le_of_eq (Option.some.inj hv)
  · obtain ⟨hi, hui⟩ := List.getElem?_eq_some_iff.mp hu
    obtain ⟨hj, hvj⟩ := List.getElem?_eq_some_iff.mp hv
    have h := List.pairwise_iff_getElem.mp hs i j hi hj hlt
    rw [hui, hvj] at h
    exact h

/-- Indices in a strictly sorted list respect the strict order. -/
lemma sorted_lt_of_getElem? {ys : List ℤ} (hs : ys.Sorted (· < ·)) {i j : ℕ} {u v : ℤ}
    (hij : i < j) (hu : ys[i]? = some u) (hv : ys[j]? = some v) : u < v := by
  obtain ⟨hi, hui⟩ := List.getElem?_eq_some_iff.mp hu
  obtain ⟨hj, hvj⟩ := List.getElem?_eq_some_iff.mp hv
  have h := List.pairwise_iff_getElem.mp hs i j hi hj hij
  rw [hui, hvj] at h
  exact h

/-- A `(· ≤ ·)`-sorted list together with no duplicates is strictly sorted. -/
lemma sorted_lt_of_le_nodup {ys : List ℤ} (hs : ys.Sorted (· ≤ ·)) (hnd : ys.Nodup) :
    ys.Sorted (· < ·) :=
  (List.Pairwise.and hs hnd).imp fun hab => lt_of_le_of_ne hab.1 hab.2

/-- `List.getD` at a valid index agrees with `getElem?`. -/
lemma getElem?_getD_of_lt {ys : List ℤ} {n : ℕ} (hlt : n < ys.length) :
    ys[n]? = some (ys.getD n 0) := by
  rw [List.getD_eq_getElem?_getD, List.getElem?_eq_getElem hlt]
  rfl

/-- `List.getD` at a valid index is a member of the list. -/
lemma getD_mem {ys : List ℤ} {n : ℕ} (hlt : n < ys.length) : ys.getD n 0 ∈ ys := by
  rw [List.getD_eq_getElem?_getD, List.getElem?_eq_getElem hlt]
  exact List.getElem_mem hlt

/-- In an association list without duplicated keys, `lookup` finds the stored
value of any member pair. -/
lemma lookup_of_mem {anchors : List (ℤ × ℝ)} (hnd : (anchors.map Prod.fst).Nodup)
    {y : ℤ} {p : ℝ} (hm : (y, p) ∈ anchors) : anchors.lookup y = some p := by
  induction anchors with
  | nil => simp at hm
  | cons a rest ih =>
      obtain ⟨a1, a2⟩ := a
      rw [List.map_cons] at hnd
      obtain ⟨hnotin, hnd2⟩ := List.nodup_cons.mp hnd
      rcases List.mem_cons.mp hm with heq | hmr
      · injection heq with h1 h2
        subst h1
        subst h2
        exact List.lookup_cons_self
      · have hya : y ≠ a1 := by
          intro h
          exact hnotin (h ▸ List.mem_map.mpr ⟨(y, p), hmr, rfl⟩)
        rw [List.lookup_cons, show (y == a1) = false from beq_eq_false_iff_ne.mpr hya]
        exact ih hnd2 hmr

/-- A positive-price anchor table yields a positive `anchorPrice` at every key. -/
lemma anchorPrice_pos {anchors : List (ℤ × ℝ)} (hp : ∀ q ∈ anchors, 0 < q.2)
    {y : ℤ} (hmem : y ∈ anchors.map Prod.fst) : 0 < anchorPrice anchors y := by
  have hsome : (anchors.lookup y).isSome := by
    rw [List.lookup_isSome_iff]
    obtain ⟨q, hq, rfl⟩ := List.mem_map.mp hmem
    exact ⟨q, hq, by simp⟩
  obtain ⟨b, hb⟩ := Option.isSome_iff_exists.mp hsome
  obtain ⟨l1, l2, heq, -⟩ := List.lookup_eq_some_iff.mp hb
  have hmemb : (y, b) ∈ anchors := by
    rw [heq]
    exact List.mem_append_right _ (List.mem_cons_self _ _)
  rw [anchorPrice, hb]
  exact hp _ hmemb

/-- Any value lying between a member below it and a member above it sits inside
some adjacent pair of a sorted list with at least two elements. -/
lemma exists_adjacent_at {t : ℤ} :
    ∀ (ys : List ℤ), ys.Sorted (· ≤ ·) →
      (∃ y ∈ ys, y ≤ t) → (∃ y ∈ ys, t ≤ y) → 2 ≤ ys.length →
      ∃ (i : ℕ) (yl yh : ℤ), ys[i]? = some yl ∧ ys[i + 1]? = some yh ∧ yl ≤ t ∧ t ≤ yh
  | [], _, _, _, h2 => by simp at h2
  | [a], _, _, _, h2 => by simp at h2
  | a :: b :: rest, hs, hlow, hupp, _ => by
      by_cases htb : t ≤ b
      · refine ⟨0, a, b, rfl, by simp, ?_, htb⟩
        obtain ⟨y, hy, hyt⟩ := hlow
        rcases List.mem_cons.mp hy with rfl | hy2
        · exact hyt
        · exact (List.rel_of_sorted_cons hs _ hy2).trans hyt
      · push_neg at htb
        obtain ⟨y, hy, hty⟩ := hupp
        have hyr : y ∈ b :: rest := by
          rcases List.mem_cons.mp hy with rfl | hy2
          · exfalso
            have hab : y ≤ b := List.rel_of_sorted_cons hs _ (List.mem_cons_self _ _)
            omega
          · exact hy2
        have h2t : 2 ≤ (b :: rest).length := by
          cases rest with
          | nil =>
              exfalso
              rcases List.mem_cons.mp hyr with rfl | hnil
              · omega
              · simp at hnil
          | cons c rest2 => simp
        obtain ⟨i, yl, yh, h1, h2, h3, h4⟩ :=
          exists_adjacent_at (b :: rest) hs.of_cons
            ⟨b, List.mem_cons_self _ _, le_of_lt htb⟩ ⟨y, hyr, hty⟩ h2t
        exact ⟨i + 1, yl, yh, by simpa using h1, by simpa using h2, h3, h4⟩

/-- The CASE 5 scan returns exactly the adjacent pair that strictly brackets
the target year, in a sorted list. -/
lemma findBracket_of_adjacent {t : ℤ} :
    ∀ (ys : List ℤ), ys.Sorted (· ≤ ·) → ∀ (i : ℕ) (yl yh : ℤ),
      ys[i]? = some yl → ys[i + 1]? = some yh → yl < t → t < yh →
      findBracket t ys = some (yl, yh)
  | [], _, i, yl, yh, hl, _, _, _ => by simp at hl
  | [a], _, i, yl, yh, hl, hh, _, _ => by
      obtain ⟨hlt, -⟩ := List.getElem?_eq_some_iff.mp hh
      simp only [List.length_singleton] at hlt
      omega
  | a :: b :: rest, hs, 0, yl, yh, hl, hh, h1, h2 => by
      have ha : a = yl := by simpa using hl
      have hb : b = yh := by simpa using hh
      subst ha
      subst hb
      simp only [findBracket]
      rw [if_pos ⟨h1, h2⟩]
  | a :: b :: rest, hs, (i + 1), yl, yh, hl, hh, h1, h2 => by
      have hl2 : (b :: rest)[i]? = some yl := by simpa using hl
      have hh2 : (b :: rest)[i + 1]? = some yh := by simpa using hh
      have hba : b ≤ yl :=
        sorted_le_of_getElem? hs.of_cons (Nat.zero_le i) (by simp) hl2
      have hguard : ¬(a < t ∧ t < b) := by
        rintro ⟨-, htb⟩
        omega
      simp only [findBracket]
      rw [if_neg hguard]
      exact findBracket_of_adjacent (b :: rest) hs.of_cons i yl yh hl2 hh2 h1 h2

/-- A year strictly inside an adjacent pair of a strictly sorted list is not a
member of the list. -/
lemma not_mem_of_between {ys : List ℤ} (hs : ys.Sorted (· < ·)) {i : ℕ} {yl yh t : ℤ}
    (hl : ys[i]? = some yl) (hh : ys[i + 1]? = some yh)
    (h1 : yl < t) (h2 : t < yh) : t ∉ ys := by
  intro hm
  obtain ⟨j, hj⟩ := List.mem_iff_getElem?.mp hm
  have hsle : ys.Sorted (· ≤ ·) := hs.imp fun h => le_of_lt h
  rcases le_or_lt j i with hji | hij
  · have := sorted_le_of_getElem? hsle hji hj hl
    omega
  · have := sorted_le_of_getElem? hsle hij hh hj
    omega

/-! ## The per-segment value of the interpolator -/

/-- The clamped log-linear blend the interpolator produces on the segment
between two anchors `(yl, pl)` and `(yh, ph)`. -/
noncomputable def segVal (max_price pl ph : ℝ) (yl yh t : ℤ) : ℝ :=
  min (Real.exp (Real.log pl +
    ((t - yl : ℤ) : ℝ) / ((yh - yl : ℤ) : ℝ) * (Real.log ph - Real.log pl))) max_price

lemma segVal_left (max_price pl ph : ℝ) (yl yh : ℤ) (hpl : 0 < pl) :
    segVal max_price pl ph yl yh yl = min pl max_price := by
  simp [segVal, Real.exp_log hpl]

lemma segVal_right (max_price pl ph : ℝ) {yl yh : ℤ} (hy : yl < yh) (hph : 0 < ph) :
    segVal max_price pl ph yl yh yh = min ph max_price := by
  have hne : ((yh - yl : ℤ) : ℝ) ≠ 0 := by
    have h0 : (0 : ℤ) < yh - yl := by omega
    exact_mod_cast h0.ne'
  have harg : Real.log pl + ((yh - yl : ℤ) : ℝ) / ((yh - yl : ℤ) : ℝ) *
      (Real.log ph - Real.log pl) = Real.log ph := by
    rw [div_self hne]
    ring
  rw [segVal, harg, Real.exp_log hph]

lemma segVal_mono (max_price pl ph : ℝ) {yl yh t1 t2 : ℤ} (hy : yl < yh)
    (hpl : 0 < pl) (hplh : pl ≤ ph) (ht : t1 ≤ t2) :
    segVal max_price pl ph yl yh t1 ≤ segVal max_price pl ph yl yh t2 := by
  have hd : (0 : ℝ) < ((yh - yl : ℤ) : ℝ) := by
    exact_mod_cast (by omega : (0 : ℤ) < yh - yl)
  have hlog : 0 ≤ Real.log ph - Real.log pl :=
    sub_nonneg.mpr (Real.log_le_log hpl hplh)
  refine min_le_min (Real.exp_le_exp.mpr (add_le_add_left ?_ _)) le_rfl
  refine mul_le_mul_of_nonneg_right ((div_le_div_right hd).mpr ?_) hlog
  exact_mod_cast (by omega : t1 - yl ≤ t2 - yl)

/-- CASE 5 characterization: for a target year strictly inside an adjacent
anchor pair (and strictly after the current year), the interpolator returns
exactly the clamped log-linear blend of the two anchor prices.  No positivity
of prices or of the current price is needed; positivity of the anchor *years*
is needed because of the Python truthiness test on `lower_anchor`. -/
lemma interp_eq_segVal_strict (anchors : List (ℤ × ℝ)) (max_price : ℝ) (current_year : ℤ)
    (current_price : ℝ)
    (hsort : (anchors.map Prod.fst).Sorted (· < ·))
    (hy : ∀ q ∈ anchors, 0 < q.1)
    {i : ℕ} {yl yh : ℤ} {pl ph : ℝ}
    (hil : anchors[i]? = some (yl, pl)) (hih : anchors[i + 1]? = some (yh, ph))
    {t : ℤ} (hcy : current_year < t) (hl : yl < t) (hh : t < yh) :
    interpolate_price_between_anchors anchors max_price current_year current_price t
      = segVal max_price pl ph yl yh t := by
  have hsle : (anchors.map Prod.fst).Sorted (· ≤ ·) := hsort.imp fun h => le_of_lt h
  have hsorteq : (anchors.map Prod.fst).insertionSort (· ≤ ·) = anchors.map Prod.fst :=
    hsle.insertionSort_eq
  have hnd : (anchors.map Prod.fst).Nodup := hsort.imp fun h => ne_of_lt h
  have hkl : (anchors.map Prod.fst)[i]? = some yl := by
    rw [List.getElem?_map, hil]
    rfl
  have hkh : (anchors.map Prod.fst)[i + 1]? = some yh := by
    rw [List.getElem?_map, hih]
    rfl
  have hmeml : (yl, pl) ∈ anchors := by
    obtain ⟨hlt, hg⟩ := List.getElem?_eq_some_iff.mp hil
    exact hg ▸ List.getElem_mem hlt
  have hmemh : (yh, ph) ∈ anchors := by
    obtain ⟨hlt, hg⟩ := List.getElem?_eq_some_iff.mp hih
    exact hg ▸ List.getElem_mem hlt
  have hlookl : anchors.lookup yl = some pl := lookup_of_mem hnd hmeml
  have hlookh : anchors.lookup yh = some ph := lookup_of_mem hnd hmemh
  have hyl0 : yl ≠ 0 := (hy _ hmeml).ne'
  have hyh0 : yh ≠ 0 := (hy _ hmemh).ne'
  have hnotmem : t ∉ anchors.map Prod.fst := not_mem_of_between hsort hkl hkh hl hh
  have hlooknone : anchors.lookup t = none := by
    rw [List.lookup_eq_none_iff]
    intro q hq
    refine bne_iff_ne.mpr fun h => hnotmem ?_
    exact h ▸ List.mem_map.mpr ⟨q, hq, rfl⟩
  have hkeysne : (anchors.map Prod.fst) ≠ [] := by
    intro h0
    rw [h0] at hkl
    simp at hkl
  have hlen0 : 0 < (anchors.map Prod.fst).length := List.length_pos.mpr hkeysne
  have hfirst : (anchors.map Prod.fst)[0]? = some ((anchors.map Prod.fst).getD 0 0) :=
    getElem?_getD_of_lt hlen0
  have hfirst_le : (anchors.map Prod.fst).getD 0 0 ≤ yl :=
    sorted_le_of_getElem? hsle (Nat.zero_le i) hfirst hkl
  have hlast_idx : i + 1 ≤ (anchors.map Prod.fst).length - 1 := by
    obtain ⟨hlt, -⟩ := List.getElem?_eq_some_iff.mp hkh
    omega
  have hlastlen : (anchors.map Prod.fst).length - 1 < (anchors.map Prod.fst).length := by
    omega
  have hlast : (anchors.map Prod.fst)[(anchors.map Prod.fst).length - 1]? =
      some ((anchors.map Prod.fst).getD ((anchors.map Prod.fst).length - 1) 0) :=
    getElem?_getD_of_lt hlastlen
  have hyh_le : yh ≤ (anchors.map Prod.fst).getD ((anchors.map Prod.fst).length - 1) 0 :=
    sorted_le_of_getElem? hsle hlast_idx hkh hlast
  have hfb : findBracket t (anchors.map Prod.fst) = some (yl, yh) :=
    findBracket_of_adjacent _ hsle i yl yh hkl hkh hl hh
  simp only [interpolate_price_between_anchors, hsorteq]
  rw [if_neg (not_le.mpr hcy), if_neg (by simp [hlooknone]),
    if_neg (not_lt.mpr (hfirst_le.trans hl.le)),
    if_neg (not_lt.mpr (hh.le.trans hyh_le)), hfb]
  split
  · rename_i lower upper heq
    injection heq with heq1
    injection heq1 with e1 e2
    subst e1
    subst e2
    rw [if_pos ⟨hyl0, hyh0⟩]
    simp only [anchorPrice, hlookl, hlookh, Option.getD_some, segVal]
  · rename_i heq
    simp at heq

/-- Closed-segment characterization: on the closed interval between two
adjacent anchors (still strictly after the current year) the interpolator
equals `segVal`; the endpoints go through CASE 2, whose growth-rate
reconstruction collapses to the anchor price. -/
lemma interp_eq_segVal (anchors : List (ℤ × ℝ)) (max_price : ℝ) (current_year : ℤ)
    (current_price : ℝ)
    (hsort : (anchors.map Prod.fst).Sorted (· < ·))
    (hy : ∀ q ∈ anchors, 0 < q.1)
    (hp : ∀ q ∈ anchors, 0 < q.2)
    (hcp : 0 < current_price)
    {i : ℕ} {yl yh : ℤ} {pl ph : ℝ}
    (hil : anchors[i]? = some (yl, pl)) (hih : anchors[i + 1]? = some (yh, ph))
    {t : ℤ} (hcy : current_year < t) (hl : yl ≤ t) (hh : t ≤ yh) :
    interpolate_price_between_anchors anchors max_price current_year current_price t
      = segVal max_price pl ph yl yh t := by
  have hnd : (anchors.map Prod.fst).Nodup := hsort.imp fun h => ne_of_lt h
  have hkl : (anchors.map Prod.fst)[i]? = some yl := by
    rw [List.getElem?_map, hil]
    rfl
  have hkh : (anchors.map Prod.fst)[i + 1]? = some yh := by
    rw [List.getElem?_map, hih]
    rfl
  have hmeml : (yl, pl) ∈ anchors := by
    obtain ⟨hlt, hg⟩ := List.getElem?_eq_some_iff.mp hil
    exact hg ▸ List.getElem_mem hlt
  have hmemh : (yh, ph) ∈ anchors := by
    obtain ⟨hlt, hg⟩ := List.getElem?_eq_some_iff.mp hih
    exact hg ▸ List.getElem_mem hlt
  have hlookl : anchors.lookup yl = some pl := lookup_of_mem hnd hmeml
  have hlookh : anchors.lookup yh = some ph := lookup_of_mem hnd hmemh
  have hpl : 0 < pl := hp _ hmeml
  have hph : 0 < ph := hp _ hmemh
  have hylh : yl < yh := sorted_lt_of_getElem? hsort (Nat.lt_succ_self i) hkl hkh
  rcases eq_or_lt_of_le hl with rfl | hl2
  · rw [segVal_left _ _ _ _ _ hpl]
    simp only [interpolate_price_between_anchors]
    rw [if_neg (not_le.mpr hcy), if_pos (by simp [hlookl])]
    simp only [anchorPrice, hlookl, Option.getD_some]
    have hne : ((yl - current_year : ℤ) : ℝ) ≠ 0 := by
      have h0 : (0 : ℤ) < yl - current_year := by omega
      exact_mod_cast h0.ne'
    rw [div_mul_cancel₀ _ hne, Real.exp_log (div_pos hpl hcp), mul_div_cancel₀ _ hcp.ne']
  · rcases eq_or_lt_of_le hh with rfl | hh2
    · rw [segVal_right _ _ _ hylh hph]
      simp only [interpolate_price_between_anchors]
      rw [if_neg (not_le.mpr hcy), if_pos (by simp [hlookh])]
      simp only [anchorPrice, hlookh, Option.getD_some]
      have hne : ((t - current_year : ℤ) : ℝ) ≠ 0 := by
        have h0 : (0 : ℤ) < t - current_year := by omega
        exact_mod_cast h0.ne'
      rw [div_mul_cancel₀ _ hne, Real.exp_log (div_pos hph hcp), mul_div_cancel₀ _ hcp.ne']
    · exact interp_eq_segVal_strict anchors max_price current_year current_price hsort hy
        hil hih hcy hl2 hh2

/-- A pair found by `getElem?` is a member of the list. -/
lemma mem_of_getElem? {anchors : List (ℤ × ℝ)} {i : ℕ} {q : ℤ × ℝ}
    (h : anchors[i]? = some q) : q ∈ anchors := by
  obtain ⟨hlt, hg⟩ := List.getElem?_eq_some_iff.mp h
  exact hg ▸ List.getElem_mem hlt

/-- Lift an index into the key list to an index into the pair list. -/
lemma getElem?_fst_pair {anchors : List (ℤ × ℝ)} {i : ℕ} {y : ℤ}
    (h : (anchors.map Prod.fst)[i]? = some y) : ∃ p : ℝ, anchors[i]? = some (y, p) := by
  rw [List.getElem?_map] at h
  cases hq : anchors[i]? with
  | none =>
      rw [hq] at h
      simp at h
  | some q =>
      rw [hq] at h
      obtain ⟨q1, q2⟩ := q
      have hq1 : q1 = y := by simpa using h
      exact ⟨q2, by rw [hq1]⟩

/-- CASE 4 characterization: beyond the last anchor the interpolator
extrapolates from the last anchor price with the growth rate of the last two
anchors, clamped by the cap, independently of the current price. -/
lemma interp_beyond_last (anchors : List (ℤ × ℝ)) (max_price : ℝ) (current_year : ℤ)
    (current_price : ℝ)
    (hsort : (anchors.map Prod.fst).Sorted (· < ·))
    {y1 y2 : ℤ} {p1 p2 : ℝ}
    (h1 : anchors[anchors.length - 2]? = some (y1, p1))
    (h2 : anchors[anchors.length - 1]? = some (y2, p2))
    (hlen : 2 ≤ anchors.length)
    {t : ℤ} (hcy : current_year < t) (ht : y2 < t) :
    interpolate_price_between_anchors anchors max_price current_year current_price t
      = min (p2 * Real.exp (Real.log (p2 / p1) / ((y2 - y1 : ℤ) : ℝ) * ((t - y2 : ℤ) : ℝ)))
          max_price := by
  have hsle : (anchors.map Prod.fst).Sorted (· ≤ ·) := hsort.imp fun h => le_of_lt h
  have hsorteq : (anchors.map Prod.fst).insertionSort (· ≤ ·) = anchors.map Prod.fst :=
    hsle.insertionSort_eq
  have hnd : (anchors.map Prod.fst).Nodup := hsort.imp fun h => ne_of_lt h
  have hlenmap : (anchors.map Prod.fst).length = anchors.length := List.length_map _ _
  have hk1 : (anchors.map Prod.fst)[(anchors.map Prod.fst).length - 2]? = some y1 := by
    rw [hlenmap, List.getElem?_map, h1]
    rfl
  have hk2 : (anchors.map Prod.fst)[(anchors.map Prod.fst).length - 1]? = some y2 := by
    rw [hlenmap, List.getElem?_map, h2]
    rfl
  have hmem1 : (y1, p1) ∈ anchors := mem_of_getElem? h1
  have hmem2 : (y2, p2) ∈ anchors := mem_of_getElem? h2
  have hlook1 : anchors.lookup y1 = some p1 := lookup_of_mem hnd hmem1
  have hlook2 : anchors.lookup y2 = some p2 := lookup_of_mem hnd hmem2
  have hnotmem : t ∉ anchors.map Prod.fst := by
    intro hm
    obtain ⟨j, hj⟩ := List.mem_iff_getElem?.mp hm
    have hjlt : j < (anchors.map Prod.fst).length := (List.getElem?_eq_some_iff.mp hj).1
    have hjle : j ≤ (anchors.map Prod.fst).length - 1 := by omega
    have := sorted_le_of_getElem? hsle hjle hj hk2
    omega
  have hlooknone : anchors.lookup t = none := by
    rw [List.lookup_eq_none_iff]
    intro q hq
    refine bne_iff_ne.mpr fun h => hnotmem ?_
    exact h ▸ List.mem_map.mpr ⟨q, hq, rfl⟩
  have hlen0 : 0 < (anchors.map Prod.fst).length := by omega
  have hfirst : (anchors.map Prod.fst)[0]? = some ((anchors.map Prod.fst).getD 0 0) :=
    getElem?_getD_of_lt hlen0
  have hfirst_le : (anchors.map Prod.fst).getD 0 0 ≤ y2 := by
    refine sorted_le_of_getElem? hsle ?_ hfirst hk2
    omega
  have hlastD : (anchors.map Prod.fst).getD ((anchors.map Prod.fst).length - 1) 0 = y2 := by
    have hg := getElem?_getD_of_lt (show (anchors.map Prod.fst).length - 1 <
      (anchors.map Prod.fst).length by omega)
    rw [hk2] at hg
    exact (Option.some.inj hg).symm
  have hslD : (anchors.map Prod.fst).getD ((anchors.map Prod.fst).length - 2) 0 = y1 := by
    have hg := getElem?_getD_of_lt (show (anchors.map Prod.fst).length - 2 <
      (anchors.map Prod.fst).length by omega)
    rw [hk1] at hg
    exact (Option.some.inj hg).symm
  simp only [interpolate_price_between_anchors, hsorteq]
  rw [if_neg (not_le.mpr hcy), if_neg (by simp [hlooknone]),
    if_neg (not_lt.mpr (hfirst_le.trans ht.le)), if_pos (by rw [hlastD]; exact ht)]
  rw [hlastD, hslD]
  simp only [anchorPrice, hlook1, hlook2, Option.getD_some]

/-- With positive inputs, a positive cap, positive anchor prices and a
nonempty table, every branch of the interpolator returns a positive value. -/
lemma interp_pos (anchors : List (ℤ × ℝ)) (max_price : ℝ) (current_year : ℤ)
    (current_price : ℝ) (target_year : ℤ)
    (hcp : 0 < current_price) (hmax : 0 < max_price)
    (hp : ∀ q ∈ anchors, 0 < q.2) (hne : anchors ≠ []) :
    0 < interpolate_price_between_anchors anchors max_price current_year current_price
      target_year := by
  have hlenpos : 0 < ((anchors.map Prod.fst).insertionSort (· ≤ ·)).length := by
    rw [(List.perm_insertionSort _ _).length_eq, List.length_map]
    exact List.length_pos.mpr hne
  have hlast_mem0 : ((anchors.map Prod.fst).insertionSort (· ≤ ·)).getD
      (((anchors.map Prod.fst).insertionSort (· ≤ ·)).length - 1) 0
      ∈ (anchors.map Prod.fst).insertionSort (· ≤ ·) :=
    getD_mem (by omega)
  have hlast_mem : ((anchors.map Prod.fst).insertionSort (· ≤ ·)).getD
      (((anchors.map Prod.fst).insertionSort (· ≤ ·)).length - 1) 0
      ∈ anchors.map Prod.fst := by
    simpa using hlast_mem0
  simp only [interpolate_price_between_anchors]
  split_ifs
  · exact hcp
  · exact lt_min (mul_pos hcp (Real.exp_pos _)) hmax
  · exact lt_min (mul_pos hcp (Real.exp_pos _)) hmax
  · exact lt_min (mul_pos (anchorPrice_pos hp hlast_mem) (Real.exp_pos _)) hmax
  · split
    · split_ifs
      · exact lt_min (Real.exp_pos _) hmax
      · exact hcp
    · exact hcp

/-- The volatility multiplier always lies in `[0.5, 2]` (the final clamp). -/
lemma volatility_bounds (target_year target_month : ℤ) (base_price : ℝ) :
    0.5 ≤ add_bitcoin_volatility target_year target_month base_price ∧
      add_bitcoin_volatility target_year target_month base_price ≤ 2 := by
  simp only [add_bitcoin_volatility]
  exact ⟨le_max_left _ _, max_le (by norm_num) ((min_le_left _ _).trans (by norm_num))⟩

/-- The month-refined price stays below the cap whenever the current price
does (valid month, positive data). -/
lemma refined_le_max (anchors : List (ℤ × ℝ)) (max_price : ℝ) (current_year : ℤ)
    (current_price : ℝ) (target_year target_month : ℤ)
    (hcp0 : 0 < current_price) (hcp : current_price ≤ max_price)
    (hp : ∀ q ∈ anchors, 0 < q.2) (hne : anchors ≠ [])
    (hm1 : 1 ≤ target_month) (hm2 : target_month ≤ 12) :
    refined_price anchors max_price current_year current_price target_year target_month
      ≤ max_price := by
  have hmax : 0 < max_price := hcp0.trans_le hcp
  simp only [refined_price]
  split_ifs with hm
  · have ha1 : 0 < interpolate_price_between_anchors anchors max_price current_year
        current_price target_year :=
      interp_pos anchors max_price current_year current_price target_year hcp0 hmax hp hne
    have hb1 : 0 < interpolate_price_between_anchors anchors max_price current_year
        current_price (target_year + 1) :=
      interp_pos anchors max_price current_year current_price (target_year + 1) hcp0 hmax hp hne
    have ha2 : interpolate_price_between_anchors anchors max_price current_year
        current_price target_year ≤ max_price :=
      interp_le_max_price anchors max_price current_year current_price target_year hcp
    have hb2 : interpolate_price_between_anchors anchors max_price current_year
        current_price (target_year + 1) ≤ max_price :=
      interp_le_max_price anchors max_price current_year current_price (target_year + 1) hcp
    have hf0 : 0 ≤ ((target_month : ℝ) - 1) / 12.0 := by
      have h1 : (1 : ℝ) ≤ (target_month : ℝ) := by exact_mod_cast hm1
      have h2 : (0 : ℝ) ≤ (target_month : ℝ) - 1 := by linarith
      exact div_nonneg h2 (by norm_num)
    have hf1 : ((target_month : ℝ) - 1) / 12.0 ≤ 1 := by
      have h1 : (target_month : ℝ) ≤ 12 := by exact_mod_cast hm2
      rw [div_le_one (by norm_num : (0 : ℝ) < 12.0)]
      linarith
    have key : ∀ a b f : ℝ, 0 < a → 0 < b → a ≤ max_price → b ≤ max_price →
        0 ≤ f → f ≤ 1 →
        Real.exp (Real.log a + f * (Real.log b - Real.log a)) ≤ max_price := by
      intro a b f ha hb hA hB hg0 hg1
      have hla := Real.log_le_log ha hA
      have hlb := Real.log_le_log hb hB
      have harg : Real.log a + f * (Real.log b - Real.log a) ≤ Real.log max_price := by
        nlinarith
      calc Real.exp (Real.log a + f * (Real.log b - Real.log a))
          ≤ Real.exp (Real.log max_price) := Real.exp_le_exp.mpr harg
        _ = max_price := Real.exp_log hmax
    exact key _ _ _ ha1 hb1 ha2 hb2 hf0 hf1
  · exact interp_le_max_price anchors max_price current_year current_price target_year hcp

/-! ## Claim theorems -/

/-- C3: `add_bitcoin_volatility` ignores its `base_price` argument — two calls
with the same `(target_year, target_month)` return identical output for any
base prices — and its output always lies in the closed interval `[0.5, 2.0]`. -/
theorem C3_volatility_deterministic_and_bounded :
    (∀ (y m : ℤ) (p q : ℝ), add_bitcoin_volatility y m p = add_bitcoin_volatility y m q) ∧
    (∀ (y m : ℤ) (p : ℝ),
      0.5 ≤ add_bitcoin_volatility y m p ∧ add_bitcoin_volatility y m p ≤ 2) := by
  constructor
  · intro y m p q
    rfl
  · intro y m p
    simp only [add_bitcoin_volatility]
    exact ⟨le_max_left _ _, max_le (by norm_num) ((min_le_left _ _).trans (by norm_num))⟩

/-- C4: whenever `target_year ≤ current_year`, the interpolator returns
`current_price` unchanged (CASE 1 of the source), for every anchor table,
cap, and current price. -/
theorem C4_at_or_before_current_year (anchors : List (ℤ × ℝ)) (max_price : ℝ)
    (current_year : ℤ) (current_price : ℝ) (target_year : ℤ)
    (h : target_year ≤ current_year) :
    interpolate_price_between_anchors anchors max_price current_year current_price target_year
      = current_price := by
  simp only [interpolate_price_between_anchors]
  rw [if_pos h]

/-- C4 witness: concrete instance at the repository configuration. -/
theorem C4_witness :
    (2024 : ℤ) ≤ 2025 ∧
      interpolate_price_between_anchors FORECAST_ANCHORS MAX_THEORETICAL_BTC_PRICE
        2025 60000 2024 = 60000 :=
  ⟨by decide, C4_at_or_before_current_year _ _ _ _ _ (by decide)⟩

/-- C1 counterexample: the claim says every branch clamps to the cap, but
CASE 1 (`target_year <= current_year`) returns `current_price` raw: with a
current price of 30,000,000 (> 22,000,000) the result exceeds the cap. -/
theorem C1_counterexample :
    MAX_THEORETICAL_BTC_PRICE <
      interpolate_price_between_anchors FORECAST_ANCHORS MAX_THEORETICAL_BTC_PRICE
        2025 30000000 2025 := by
  have h : interpolate_price_between_anchors FORECAST_ANCHORS MAX_THEORETICAL_BTC_PRICE
      2025 30000000 2025 = 30000000 := by
    simp only [interpolate_price_between_anchors]
    rw [if_pos (le_refl (2025 : ℤ))]
  rw [h, MAX_THEORETICAL_BTC_PRICE]
  norm_num

/-- C1 amended: for every input whose current price is itself at most the cap,
the result of `interpolate_price_between_anchors` is at most
`MAX_THEORETICAL_BTC_PRICE`; branches 2-5 clamp with `min(result, cap)`, while
the at-or-before-current-year branch and the final fallback return
`current_price` unclamped (hence the hypothesis). -/
theorem C1_amended_capped (anchors : List (ℤ × ℝ)) (max_price : ℝ) (current_year : ℤ)
    (current_price : ℝ) (target_year : ℤ) (hcp : current_price ≤ max_price) :
    interpolate_price_between_anchors anchors max_price current_year current_price target_year
      ≤ max_price :=
  interp_le_max_price anchors max_price current_year current_price target_year hcp

/-- C1 witness: concrete instance of the amended bound. -/
theorem C1_witness :
    (100000 : ℝ) ≤ MAX_THEORETICAL_BTC_PRICE ∧
      interpolate_price_between_anchors FORECAST_ANCHORS MAX_THEORETICAL_BTC_PRICE
        2025 100000 2035 ≤ MAX_THEORETICAL_BTC_PRICE :=
  ⟨by rw [MAX_THEORETICAL_BTC_PRICE]; norm_num,
    C1_amended_capped _ _ _ _ _ (by rw [MAX_THEORETICAL_BTC_PRICE]; norm_num)⟩

/-- C5: when the target year is an anchor key (and strictly after the current
year), the CASE 2 growth-rate reconstruction is algebraically a no-op: the
pre-cap value `current_price * exp(log(a/current_price)/n * n)` equals the
anchor price `a` exactly, and the branch returns `min a max_price`, for every
positive current price and positive anchor price. -/
theorem C5_exact_anchor_noop (anchors : List (ℤ × ℝ)) (max_price : ℝ)
    (current_year : ℤ) (current_price : ℝ) (target_year : ℤ) (a : ℝ)
    (hcy : current_year < target_year)
    (ha : anchors.lookup target_year = some a)
    (hcp : 0 < current_price) (hap : 0 < a) :
    current_price *
        Real.exp (Real.log (a / current_price) / ((target_year - current_year : ℤ) : ℝ) *
          ((target_year - current_year : ℤ) : ℝ)) = a ∧
      interpolate_price_between_anchors anchors max_price current_year current_price target_year
        = min a max_price := by
  have hne : ((target_year - current_year : ℤ) : ℝ) ≠ 0 := by
    have h0 : (0 : ℤ) < target_year - current_year := by omega
    exact_mod_cast h0.ne'
  have hpre : current_price *
      Real.exp (Real.log (a / current_price) / ((target_year - current_year : ℤ) : ℝ) *
        ((target_year - current_year : ℤ) : ℝ)) = a := by
    rw [div_mul_cancel₀ _ hne, Real.exp_log (div_pos hap hcp),
      mul_div_cancel₀ _ hcp.ne']
  refine ⟨hpre, ?_⟩
  simp only [interpolate_price_between_anchors]
  rw [if_neg (not_le.mpr hcy), if_pos (by simp [ha])]
  simp only [anchorPrice, ha, Option.getD_some]
  rw [hpre]

/-- C5 witness: at the repository configuration, projecting to the 2030 anchor
from 2025 with current price 100,000 returns `min 800000 cap`. -/
theorem C5_witness :
    (2025 : ℤ) < 2030 ∧
      interpolate_price_between_anchors FORECAST_ANCHORS MAX_THEORETICAL_BTC_PRICE
        2025 100000 2030 = min 800000 MAX_THEORETICAL_BTC_PRICE :=
  ⟨by decide,
    (C5_exact_anchor_noop FORECAST_ANCHORS MAX_THEORETICAL_BTC_PRICE 2025 100000 2030 800000
      (by decide) (by rw [FORECAST_ANCHORS]; rfl) (by norm_num) (by norm_num)).2⟩

/-- C9: the code performs no input validation at all.  With the invalid input
`current_price = -1` (and the repository configuration, current year 2025,
target year 2030) the interpolator silently returns the garbage value
`-800000` instead of reporting a failure: in Python `np.log(800000 / -1)`
is NaN and the NaN propagates to the caller; in this real-valued embedding
(where `Real.log` is total with `log (-x) = log x`) the same branch returns
`-800000`.  Either way a non-error, non-positive "price" is delivered. -/
theorem C9_invalid_input_not_rejected :
    interpolate_price_between_anchors FORECAST_ANCHORS MAX_THEORETICAL_BTC_PRICE
      2025 (-1) 2030 = -800000 := by
  simp only [interpolate_price_between_anchors]
  rw [if_neg (by decide), if_pos (by rw [FORECAST_ANCHORS]; rfl)]
  have ha : anchorPrice FORECAST_ANCHORS 2030 = 800000 := by
    rw [anchorPrice, FORECAST_ANCHORS]
    rfl
  rw [ha]
  have hc : ((2030 - 2025 : ℤ) : ℝ) = 5 := by norm_num
  rw [hc]
  have hdiv : (800000 : ℝ) / (-1) = -800000 := by norm_num
  rw [hdiv]
  rw [div_mul_cancel₀ _ (by norm_num : (5 : ℝ) ≠ 0)]
  have hlog : Real.log (-800000 : ℝ) = Real.log 800000 := by
    rw [show (-800000 : ℝ) = -(800000 : ℝ) by norm_num, Real.log_neg_eq_log]
  rw [hlog, Real.exp_log (by norm_num)]
  rw [MAX_THEORETICAL_BTC_PRICE]
  norm_num

/-- The two-point anchor table used by the specification's round-trip test. -/
noncomputable def TEST_ANCHORS : List (ℤ × ℝ) := [(2030, 800000), (2040, 2500000)]

/-- C6 counterexample: with the nondecreasing table {2030: 800000, 2040: 2500000}
and a current year of 2035 lying inside the anchor range, the target years
2035 ≤ 2036 both lie between the smallest and largest anchor, yet the result
at 2036 is strictly below the result at 2035 (CASE 1 returns the raw current
price 3,000,000, while 2036 is log-interpolated between the anchors and stays
below 2,500,000) — the claim fails without a restriction to target years
strictly after the current year. -/
theorem C6_counterexample :
    (2030 : ℤ) ≤ 2035 ∧ (2035 : ℤ) ≤ 2036 ∧ (2036 : ℤ) ≤ 2040 ∧
      interpolate_price_between_anchors TEST_ANCHORS MAX_THEORETICAL_BTC_PRICE 2035 3000000 2036
        < interpolate_price_between_anchors TEST_ANCHORS MAX_THEORETICAL_BTC_PRICE
            2035 3000000 2035 := by
  refine ⟨by norm_num, by norm_num, by norm_num, ?_⟩
  have h1 : interpolate_price_between_anchors TEST_ANCHORS MAX_THEORETICAL_BTC_PRICE
      2035 3000000 2035 = 3000000 := by
    simp only [interpolate_price_between_anchors]
    rw [if_pos (le_refl (2035 : ℤ))]
  have hil : TEST_ANCHORS[0]? = some ((2030 : ℤ), (800000 : ℝ)) := by rfl
  have hih : TEST_ANCHORS[0 + 1]? = some ((2040 : ℤ), (2500000 : ℝ)) := by rfl
  have h2 : interpolate_price_between_anchors TEST_ANCHORS MAX_THEORETICAL_BTC_PRICE
      2035 3000000 2036 = segVal MAX_THEORETICAL_BTC_PRICE 800000 2500000 2030 2040 2036 :=
    interp_eq_segVal_strict TEST_ANCHORS MAX_THEORETICAL_BTC_PRICE 2035 3000000
      (by decide) (by decide) hil hih (by norm_num) (by norm_num) (by norm_num)
  rw [h1, h2]
  have hlog : Real.log 800000 ≤ Real.log 2500000 :=
    Real.log_le_log (by norm_num) (by norm_num)
  have hcast : ((2036 - 2030 : ℤ) : ℝ) / ((2040 - 2030 : ℤ) : ℝ) = 6 / 10 := by norm_num
  calc segVal MAX_THEORETICAL_BTC_PRICE 800000 2500000 2030 2040 2036
      ≤ Real.exp (Real.log 800000 + 6 / 10 * (Real.log 2500000 - Real.log 800000)) := by
        rw [segVal, hcast]
        exact min_le_left _ _
    _ ≤ Real.exp (Real.log 2500000) := by
        apply Real.exp_le_exp.mpr
        nlinarith
    _ = 2500000 := Real.exp_log (by norm_num)
    _ < 3000000 := by norm_num

/-- C6 amended: for a valid anchor table (strictly increasing positive years,
positive prices) whose prices are nondecreasing, and a positive current price,
the interpolator is nondecreasing in the target year over the span of the
anchor table — provided both target years are strictly after the current year
(the restriction the counterexample forces; CASE 1 returns the raw current
price and is otherwise free to break monotonicity). -/
theorem C6_amended_monotone (anchors : List (ℤ × ℝ)) (max_price : ℝ) (current_year : ℤ)
    (current_price : ℝ)
    (hsort : (anchors.map Prod.fst).Sorted (· < ·))
    (hy : ∀ q ∈ anchors, 0 < q.1)
    (hp : ∀ q ∈ anchors, 0 < q.2)
    (hmono : (anchors.map Prod.snd).Sorted (· ≤ ·))
    (hcp : 0 < current_price)
    {t1 t2 : ℤ} (h12 : t1 ≤ t2) (hcy : current_year < t1)
    (hlow : ∃ q ∈ anchors, q.1 ≤ t1) (hupp : ∃ q ∈ anchors, t2 ≤ q.1) :
    interpolate_price_between_anchors anchors max_price current_year current_price t1
      ≤ interpolate_price_between_anchors anchors max_price current_year current_price t2 := by
  rcases eq_or_lt_of_le h12 with rfl | hlt
  · exact le_rfl
  have hsle : (anchors.map Prod.fst).Sorted (· ≤ ·) := hsort.imp fun h => le_of_lt h
  obtain ⟨qa, hqa, hqat⟩ := hlow
  obtain ⟨qb, hqb, hqbt⟩ := hupp
  have hmema : qa.1 ∈ anchors.map Prod.fst := List.mem_map.mpr ⟨qa, hqa, rfl⟩
  have hmemb : qb.1 ∈ anchors.map Prod.fst := List.mem_map.mpr ⟨qb, hqb, rfl⟩
  have hlen : 2 ≤ (anchors.map Prod.fst).length := by
    by_contra hno
    push_neg at hno
    rcases hkeys : anchors.map Prod.fst with - | ⟨x, tail⟩
    · rw [hkeys] at hmema
      simp at hmema
    · cases tail with
      | nil =>
          rw [hkeys] at hmema hmemb
          have ha : qa.1 = x := by simpa using hmema
          have hb : qb.1 = x := by simpa using hmemb
          omega
      | cons z tail2 =>
          rw [hkeys] at hno
          simp only [List.length_cons] at hno
          omega
  obtain ⟨i, yl1, yh1, hk1l, hk1h, hl1, hh1⟩ :=
    exists_adjacent_at (anchors.map Prod.fst) hsle ⟨qa.1, hmema, hqat⟩
      ⟨qb.1, hmemb, hlt.le.trans hqbt⟩ hlen
  obtain ⟨j, yl2, yh2, hk2l, hk2h, hl2, hh2⟩ :=
    exists_adjacent_at (anchors.map Prod.fst) hsle ⟨qa.1, hmema, hqat.trans hlt.le⟩
      ⟨qb.1, hmemb, hqbt⟩ hlen
  obtain ⟨pl1, hi1l⟩ := getElem?_fst_pair hk1l
  obtain ⟨ph1, hi1h⟩ := getElem?_fst_pair hk1h
  obtain ⟨pl2, hi2l⟩ := getElem?_fst_pair hk2l
  obtain ⟨ph2, hi2h⟩ := getElem?_fst_pair hk2h
  have hcy2 : current_year < t2 := hcy.trans hlt
  have E1 := interp_eq_segVal anchors max_price current_year current_price hsort hy hp hcp
    hi1l hi1h hcy hl1 hh1
  have E2 := interp_eq_segVal anchors max_price current_year current_price hsort hy hp hcp
    hi2l hi2h hcy2 hl2 hh2
  rw [E1, E2]
  have hpl1 : 0 < pl1 := hp _ (mem_of_getElem? hi1l)
  have hph1 : 0 < ph1 := hp _ (mem_of_getElem? hi1h)
  have hpl2 : 0 < pl2 := hp _ (mem_of_getElem? hi2l)
  have hy1 : yl1 < yh1 := sorted_lt_of_getElem? hsort (Nat.lt_succ_self i) hk1l hk1h
  have hy2 : yl2 < yh2 := sorted_lt_of_getElem? hsort (Nat.lt_succ_self j) hk2l hk2h
  have hs1l : (anchors.map Prod.snd)[i]? = some pl1 := by
    rw [List.getElem?_map, hi1l]
    rfl
  have hs1h : (anchors.map Prod.snd)[i + 1]? = some ph1 := by
    rw [List.getElem?_map, hi1h]
    rfl
  have hs2l : (anchors.map Prod.snd)[j]? = some pl2 := by
    rw [List.getElem?_map, hi2l]
    rfl
  have hs2h : (anchors.map Prod.snd)[j + 1]? = some ph2 := by
    rw [List.getElem?_map, hi2h]
    rfl
  have hp1lh : pl1 ≤ ph1 := sorted_le_of_getElem? hmono (Nat.le_succ i) hs1l hs1h
  have hp2lh : pl2 ≤ ph2 := sorted_le_of_getElem? hmono (Nat.le_succ j) hs2l hs2h
  rcases lt_trichotomy i j with hij | rfl | hji
  · have hph1_le : ph1 ≤ pl2 := sorted_le_of_getElem? hmono hij hs1h hs2l
    calc segVal max_price pl1 ph1 yl1 yh1 t1
        ≤ segVal max_price pl1 ph1 yl1 yh1 yh1 := segVal_mono _ _ _ hy1 hpl1 hp1lh hh1
      _ = min ph1 max_price := segVal_right _ _ _ hy1 hph1
      _ ≤ min pl2 max_price := min_le_min hph1_le le_rfl
      _ = segVal max_price pl2 ph2 yl2 yh2 yl2 := (segVal_left _ _ _ _ _ hpl2).symm
      _ ≤ segVal max_price pl2 ph2 yl2 yh2 t2 := segVal_mono _ _ _ hy2 hpl2 hp2lh hl2
  · have hq1 := Option.some.inj (hi1l.symm.trans hi2l)
    have hq2 := Option.some.inj (hi1h.symm.trans hi2h)
    injection hq1 with e1 e2
    injection hq2 with e3 e4
    subst e1
    subst e2
    subst e3
    subst e4
    exact segVal_mono _ _ _ hy1 hpl1 hp1lh hlt.le
  · exfalso
    have hji2 : j + 1 ≤ i := hji
    have : yh2 ≤ yl1 := sorted_le_of_getElem? hsle hji2 hk2h hk1l
    omega

/-- C6 witness: concrete instance of the amended monotonicity at the
repository configuration. -/
theorem C6_witness :
    interpolate_price_between_anchors FORECAST_ANCHORS MAX_THEORETICAL_BTC_PRICE 2024 100000 2031
      ≤ interpolate_price_between_anchors FORECAST_ANCHORS MAX_THEORETICAL_BTC_PRICE
          2024 100000 2045 :=
  C6_amended_monotone FORECAST_ANCHORS MAX_THEORETICAL_BTC_PRICE 2024 100000
    (by decide) (by decide)
    (by
      intro q hq
      simp only [FORECAST_ANCHORS, List.mem_cons, List.not_mem_nil, or_false] at hq
      rcases hq with rfl | rfl | rfl <;> norm_num)
    (by
      simp only [FORECAST_ANCHORS, List.map_cons, List.map_nil, List.sorted_cons,
        List.mem_cons, List.not_mem_nil, or_false, List.mem_singleton]
      norm_num)
    (by norm_num)
    (show (2031 : ℤ) ≤ 2045 by norm_num) (by norm_num)
    ⟨(2030, 800000), by simp [FORECAST_ANCHORS], by norm_num⟩
    ⟨(2050, 6000000), by simp [FORECAST_ANCHORS], by norm_num⟩

/-- C7: for every target year strictly between two adjacent anchor years of a
valid table (strictly increasing positive years) — and strictly after the
current year, so that CASE 5 is the branch that applies — the interpolator
returns `min(cap, exp(log pl + position * (log ph - log pl)))`, a value
independent of the current price; concretely, with the two-point table
{2030: 800000, 2040: 2500000}, current year 2025 and current price 100000, the
result for 2035 is exactly `exp((log 800000 + log 2500000)/2)`, the geometric
mean `1000000 * sqrt 2 ≈ 1,414,213.56` (below the cap, so returned uncapped
and before volatility). -/
theorem C7_between_adjacent_anchors :
    (∀ (anchors : List (ℤ × ℝ)) (max_price : ℝ) (current_year : ℤ) (current_price : ℝ)
        (i : ℕ) (yl yh : ℤ) (pl ph : ℝ) (t : ℤ),
        (anchors.map Prod.fst).Sorted (· < ·) →
        (∀ q ∈ anchors, 0 < q.1) →
        anchors[i]? = some (yl, pl) → anchors[i + 1]? = some (yh, ph) →
        current_year < t → yl < t → t < yh →
        interpolate_price_between_anchors anchors max_price current_year current_price t
            = min max_price (Real.exp (Real.log pl +
                ((t - yl : ℤ) : ℝ) / ((yh - yl : ℤ) : ℝ) * (Real.log ph - Real.log pl))) ∧
          ∀ cp2 : ℝ,
            interpolate_price_between_anchors anchors max_price current_year current_price t
              = interpolate_price_between_anchors anchors max_price current_year cp2 t) ∧
      (interpolate_price_between_anchors TEST_ANCHORS MAX_THEORETICAL_BTC_PRICE 2025 100000 2035
          = Real.exp ((Real.log 800000 + Real.log 2500000) / 2) ∧
        Real.exp ((Real.log 800000 + Real.log 2500000) / 2) = 1000000 * Real.sqrt 2) := by
  have hgeneral : ∀ (anchors : List (ℤ × ℝ)) (max_price : ℝ) (current_year : ℤ)
      (current_price : ℝ) (i : ℕ) (yl yh : ℤ) (pl ph : ℝ) (t : ℤ),
      (anchors.map Prod.fst).Sorted (· < ·) →
      (∀ q ∈ anchors, 0 < q.1) →
      anchors[i]? = some (yl, pl) → anchors[i + 1]? = some (yh, ph) →
      current_year < t → yl < t → t < yh →
      interpolate_price_between_anchors anchors max_price current_year current_price t
        = min max_price (Real.exp (Real.log pl +
            ((t - yl : ℤ) : ℝ) / ((yh - yl : ℤ) : ℝ) * (Real.log ph - Real.log pl))) := by
    intro anchors max_price current_year current_price i yl yh pl ph t hsort hy hil hih hcy hl hh
    rw [interp_eq_segVal_strict anchors max_price current_year current_price hsort hy
      hil hih hcy hl hh, segVal, min_comm]
  constructor
  · intro anchors max_price current_year current_price i yl yh pl ph t hsort hy hil hih hcy hl hh
    refine ⟨hgeneral anchors max_price current_year current_price i yl yh pl ph t hsort hy
      hil hih hcy hl hh, ?_⟩
    intro cp2
    rw [hgeneral anchors max_price current_year current_price i yl yh pl ph t hsort hy
      hil hih hcy hl hh,
      hgeneral anchors max_price current_year cp2 i yl yh pl ph t hsort hy
      hil hih hcy hl hh]
  · have hil : TEST_ANCHORS[0]? = some ((2030 : ℤ), (800000 : ℝ)) := by rfl
    have hih : TEST_ANCHORS[0 + 1]? = some ((2040 : ℤ), (2500000 : ℝ)) := by rfl
    have h := hgeneral TEST_ANCHORS MAX_THEORETICAL_BTC_PRICE 2025 100000 0 2030 2040
      800000 2500000 2035 (by decide) (by decide) hil hih (by norm_num) (by norm_num)
      (by norm_num)
    have hcast : ((2035 - 2030 : ℤ) : ℝ) / ((2040 - 2030 : ℤ) : ℝ) = 1 / 2 := by norm_num
    have harg : Real.log 800000 + 1 / 2 * (Real.log 2500000 - Real.log 800000)
        = (Real.log 800000 + Real.log 2500000) / 2 := by ring
    rw [hcast, harg] at h
    have hE2 : (Real.exp ((Real.log 800000 + Real.log 2500000) / 2)) ^ 2
        = 2000000000000 := by
      rw [sq, ← Real.exp_add]
      have hsum : (Real.log 800000 + Real.log 2500000) / 2 +
          (Real.log 800000 + Real.log 2500000) / 2
          = Real.log 800000 + Real.log 2500000 := by ring
      rw [hsum, Real.exp_add, Real.exp_log (by norm_num), Real.exp_log (by norm_num)]
      norm_num
    have hsqrt : Real.sqrt 2000000000000
        = Real.exp ((Real.log 800000 + Real.log 2500000) / 2) :=
      (Real.sqrt_eq_iff_sq_eq (by norm_num) (Real.exp_pos _).le).mpr hE2
    have hfac : Real.sqrt 2000000000000 = 1000000 * Real.sqrt 2 := by
      have h2 : (2000000000000 : ℝ) = (1000000 : ℝ) ^ 2 * 2 := by norm_num
      rw [h2, Real.sqrt_mul (sq_nonneg _) 2, Real.sqrt_sq (by norm_num : (0 : ℝ) ≤ 1000000)]
    have hEval : Real.exp ((Real.log 800000 + Real.log 2500000) / 2)
        = 1000000 * Real.sqrt 2 := by
      rw [← hsqrt, hfac]
    refine ⟨?_, hEval⟩
    rw [h, hEval]
    have hle : 1000000 * Real.sqrt 2 ≤ MAX_THEORETICAL_BTC_PRICE := by
      rw [MAX_THEORETICAL_BTC_PRICE]
      nlinarith [Real.sq_sqrt (show (0 : ℝ) ≤ 2 by norm_num), Real.sqrt_nonneg 2,
        sq_nonneg (Real.sqrt 2 - 2)]
    rw [min_eq_right hle]

/-- C7 witness: the general branch applied at the repository configuration
(target year 2035, bracketed by the 2030 and 2040 anchors). -/
theorem C7_witness :
    interpolate_price_between_anchors FORECAST_ANCHORS MAX_THEORETICAL_BTC_PRICE 2024 77777 2035
      = min MAX_THEORETICAL_BTC_PRICE (Real.exp (Real.log 800000 +
          ((2035 - 2030 : ℤ) : ℝ) / ((2040 - 2030 : ℤ) : ℝ) *
            (Real.log 2500000 - Real.log 800000))) :=
  (C7_between_adjacent_anchors.1 FORECAST_ANCHORS MAX_THEORETICAL_BTC_PRICE 2024 77777
    0 2030 2040 800000 2500000 2035 (by decide) (by decide) (by rfl) (by rfl)
    (by norm_num) (by norm_num) (by norm_num)).1

/-- C8: for every target year strictly beyond the largest anchor year of a
valid table (and strictly after the current year, so that CASE 4 applies), the
interpolator extrapolates from the last anchor price with the growth rate of
the last two anchors, `min(cap, p2 * exp(log(p2/p1)/(y2-y1) * (t-y2)))`,
independently of the current price; concretely, with the repository anchors
{2030: 800000, 2040: 2500000, 2050: 6000000}, cap 22,000,000, current year
2024, current price 60000 and target year 2060, the pre-cap value
`6000000 * exp(log(2.4)/10 * 10) = 14,400,000` is below the cap, so the capped
result equals the uncapped one. -/
theorem C8_beyond_last_anchor :
    (∀ (anchors : List (ℤ × ℝ)) (max_price : ℝ) (current_year : ℤ) (current_price : ℝ)
        (y1 y2 : ℤ) (p1 p2 : ℝ) (t : ℤ),
        (anchors.map Prod.fst).Sorted (· < ·) →
        anchors[anchors.length - 2]? = some (y1, p1) →
        anchors[anchors.length - 1]? = some (y2, p2) →
        2 ≤ anchors.length →
        current_year < t → y2 < t →
        interpolate_price_between_anchors anchors max_price current_year current_price t
            = min max_price (p2 * Real.exp (Real.log (p2 / p1) / ((y2 - y1 : ℤ) : ℝ) *
                ((t - y2 : ℤ) : ℝ))) ∧
          ∀ cp2 : ℝ,
            interpolate_price_between_anchors anchors max_price current_year current_price t
              = interpolate_price_between_anchors anchors max_price current_year cp2 t) ∧
      (interpolate_price_between_anchors FORECAST_ANCHORS MAX_THEORETICAL_BTC_PRICE
          2024 60000 2060 = 14400000 ∧
        (6000000 : ℝ) * Real.exp (Real.log ((6000000 : ℝ) / 2500000) /
            ((2050 - 2040 : ℤ) : ℝ) * ((2060 - 2050 : ℤ) : ℝ)) = 14400000) := by
  have hpre : (6000000 : ℝ) * Real.exp (Real.log ((6000000 : ℝ) / 2500000) /
      ((2050 - 2040 : ℤ) : ℝ) * ((2060 - 2050 : ℤ) : ℝ)) = 14400000 := by
    have hc1 : ((2050 - 2040 : ℤ) : ℝ) = 10 := by norm_num
    have hc2 : ((2060 - 2050 : ℤ) : ℝ) = 10 := by norm_num
    rw [hc1, hc2, div_mul_cancel₀ _ (by norm_num : (10 : ℝ) ≠ 0),
      Real.exp_log (by norm_num : (0 : ℝ) < (6000000 : ℝ) / 2500000)]
    norm_num
  constructor
  · intro anchors max_price current_year current_price y1 y2 p1 p2 t hsort h1 h2 hlen hcy ht
    have hmain := interp_beyond_last anchors max_price current_year current_price hsort
      h1 h2 hlen hcy ht
    refine ⟨hmain.trans (min_comm _ _), ?_⟩
    intro cp2
    rw [hmain, interp_beyond_last anchors max_price current_year cp2 hsort h1 h2 hlen hcy ht]
  · refine ⟨?_, hpre⟩
    have h1 : FORECAST_ANCHORS[FORECAST_ANCHORS.length - 2]?
        = some ((2040 : ℤ), (2500000 : ℝ)) := by rfl
    have h2 : FORECAST_ANCHORS[FORECAST_ANCHORS.length - 1]?
        = some ((2050 : ℤ), (6000000 : ℝ)) := by rfl
    have h := interp_beyond_last FORECAST_ANCHORS MAX_THEORETICAL_BTC_PRICE 2024 60000
      (by decide) h1 h2 (by decide) (show (2024 : ℤ) < 2060 by norm_num)
      (show (2050 : ℤ) < 2060 by norm_num)
    rw [h, hpre, MAX_THEORETICAL_BTC_PRICE]
    norm_num

/-- C8 witness: the general branch applied at the repository configuration. -/
theorem C8_witness :
    interpolate_price_between_anchors FORECAST_ANCHORS MAX_THEORETICAL_BTC_PRICE 2024 60000 2060
      = min MAX_THEORETICAL_BTC_PRICE ((6000000 : ℝ) *
          Real.exp (Real.log ((6000000 : ℝ) / 2500000) / ((2050 - 2040 : ℤ) : ℝ) *
            ((2060 - 2050 : ℤ) : ℝ))) :=
  (C8_beyond_last_anchor.1 FORECAST_ANCHORS MAX_THEORETICAL_BTC_PRICE 2024 60000
    2040 2050 2500000 6000000 2060 (by decide) (by rfl) (by rfl) (by decide)
    (by norm_num) (by norm_num)).1

/-- C10: for every anchor table with at least two entries whose years are
distinct positive integers, the guard chain of
`interpolate_price_between_anchors` never reaches the final
`return current_price` fallback: one of the five cases always applies. -/
theorem C10_fallback_unreachable (anchors : List (ℤ × ℝ))
    (hnd : (anchors.map Prod.fst).Nodup)
    (hy : ∀ q ∈ anchors, 0 < q.1)
    (hlen : 2 ≤ anchors.length)
    (current_year target_year : ℤ) :
    hits_fallback anchors current_year target_year = false := by
  have hsle : ((anchors.map Prod.fst).insertionSort (· ≤ ·)).Sorted (· ≤ ·) :=
    List.sorted_insertionSort _ _
  have hperm : List.Perm ((anchors.map Prod.fst).insertionSort (· ≤ ·))
      (anchors.map Prod.fst) :=
    List.perm_insertionSort _ _
  have hndys : ((anchors.map Prod.fst).insertionSort (· ≤ ·)).Nodup :=
    hperm.nodup_iff.mpr hnd
  have hsort : ((anchors.map Prod.fst).insertionSort (· ≤ ·)).Sorted (· < ·) :=
    sorted_lt_of_le_nodup hsle hndys
  have hlenys : 2 ≤ ((anchors.map Prod.fst).insertionSort (· ≤ ·)).length := by
    rw [hperm.length_eq, List.length_map]
    exact hlen
  simp only [hits_fallback]
  split_ifs with g1 g2 g3 g4
  · rfl
  · rfl
  · rfl
  · rfl
  · have hlooknone : anchors.lookup target_year = none :=
      Option.not_isSome_iff_eq_none.mp (by simpa using g2)
    have hnotkeys : target_year ∉ anchors.map Prod.fst := by
      intro hm
      obtain ⟨q, hq, hfst⟩ := List.mem_map.mp hm
      have := (List.lookup_eq_none_iff.mp hlooknone) q hq
      rw [← hfst] at this
      simp at this
    have hnotys : target_year ∉ (anchors.map Prod.fst).insertionSort (· ≤ ·) := by
      rw [hperm.mem_iff]
      exact hnotkeys
    have hfirst_mem : ((anchors.map Prod.fst).insertionSort (· ≤ ·)).getD 0 0
        ∈ (anchors.map Prod.fst).insertionSort (· ≤ ·) := getD_mem (by omega)
    have hlast_mem : ((anchors.map Prod.fst).insertionSort (· ≤ ·)).getD
        (((anchors.map Prod.fst).insertionSort (· ≤ ·)).length - 1) 0
        ∈ (anchors.map Prod.fst).insertionSort (· ≤ ·) := getD_mem (by omega)
    push_neg at g3 g4
    obtain ⟨i, yl, yh, hkl, hkh, hl, hh⟩ :=
      exists_adjacent_at ((anchors.map Prod.fst).insertionSort (· ≤ ·)) hsle
        ⟨_, hfirst_mem, g3⟩ ⟨_, hlast_mem, g4⟩ hlenys
    have hylmem : yl ∈ (anchors.map Prod.fst).insertionSort (· ≤ ·) := by
      obtain ⟨hlt, hg⟩ := List.getElem?_eq_some_iff.mp hkl
      exact hg ▸ List.getElem_mem hlt
    have hyhmem : yh ∈ (anchors.map Prod.fst).insertionSort (· ≤ ·) := by
      obtain ⟨hlt, hg⟩ := List.getElem?_eq_some_iff.mp hkh
      exact hg ▸ List.getElem_mem hlt
    have hylpos : 0 < yl := by
      obtain ⟨q, hq, hfst⟩ := List.mem_map.mp (hperm.mem_iff.mp hylmem)
      exact hfst ▸ hy q hq
    have hyhpos : 0 < yh := by
      obtain ⟨q, hq, hfst⟩ := List.mem_map.mp (hperm.mem_iff.mp hyhmem)
      exact hfst ▸ hy q hq
    have hlstrict : yl < target_year :=
      lt_of_le_of_ne hl fun h => hnotys (h ▸ hylmem)
    have hhstrict : target_year < yh :=
      lt_of_le_of_ne hh fun h => hnotys (h.symm ▸ hyhmem)
    rw [findBracket_of_adjacent _ hsle i yl yh hkl hkh hlstrict hhstrict]
    split
    · rename_i lower upper heq
      injection heq with heq1
      injection heq1 with e1 e2
      subst e1
      subst e2
      rw [if_pos ⟨hylpos.ne', hyhpos.ne'⟩]
    · rename_i heq
      simp at heq

/-- C10 witness: the repository configuration satisfies the hypotheses, at a
sample input. -/
theorem C10_witness : hits_fallback FORECAST_ANCHORS 2024 2035 = false :=
  C10_fallback_unreachable FORECAST_ANCHORS (by decide) (by decide) (by decide) 2024 2035

/-- C2: in `calculate_future_price` the volatility overlay is applied after
the safety cap — the final output is exactly the (capped) refined price times
the volatility factor.  Consequently, for every valid input whose current
price is at most the cap, the output is at most `2 * cap`; and at the rally
month (2070, 1), where the crash seed `(2070*17+7) % 100 = 97 > 96` fires the
1.8x pump and the year-level projection saturates the cap, the output strictly
exceeds the nominal safety cap. -/
theorem C2_volatility_after_cap :
    (∀ (anchors : List (ℤ × ℝ)) (max_price : ℝ) (current_year : ℤ) (current_price : ℝ)
        (target_year target_month : ℤ),
        calculate_future_price_core anchors max_price current_year current_price
            target_year target_month
          = refined_price anchors max_price current_year current_price target_year target_month
              * add_bitcoin_volatility target_year target_month
                  (refined_price anchors max_price current_year current_price
                    target_year target_month)) ∧
      (∀ (anchors : List (ℤ × ℝ)) (max_price : ℝ) (current_year : ℤ) (current_price : ℝ)
          (target_year target_month : ℤ),
          0 < current_price → current_price ≤ max_price →
          (∀ q ∈ anchors, 0 < q.2) → anchors ≠ [] →
          1 ≤ target_month → target_month ≤ 12 →
          calculate_future_price_core anchors max_price current_year current_price
              target_year target_month ≤ 2 * max_price) ∧
      MAX_THEORETICAL_BTC_PRICE <
        calculate_future_price_core FORECAST_ANCHORS MAX_THEORETICAL_BTC_PRICE
          2024 100000 2070 1 := by
  refine ⟨fun _ _ _ _ _ _ => rfl, ?_, ?_⟩
  · intro anchors max_price current_year current_price target_year target_month
      hcp0 hcp hp hne hm1 hm2
    have href := refined_le_max anchors max_price current_year current_price
      target_year target_month hcp0 hcp hp hne hm1 hm2
    have hvol := volatility_bounds target_year target_month
      (refined_price anchors max_price current_year current_price target_year target_month)
    have hrefpos : 0 ≤ refined_price anchors max_price current_year current_price
        target_year target_month := by
      simp only [refined_price]
      split_ifs
      · exact (Real.exp_pos _).le
      · exact (interp_pos anchors max_price current_year current_price target_year hcp0
          (hcp0.trans_le hcp) hp hne).le
    simp only [calculate_future_price_core]
    have hmul := mul_le_mul href hvol.2 (le_trans (by norm_num : (0 : ℝ) ≤ 0.5) hvol.1)
      (hcp0.trans_le hcp).le
    linarith
  · have h1 : FORECAST_ANCHORS[FORECAST_ANCHORS.length - 2]?
        = some ((2040 : ℤ), (2500000 : ℝ)) := by rfl
    have h2 : FORECAST_ANCHORS[FORECAST_ANCHORS.length - 1]?
        = some ((2050 : ℤ), (6000000 : ℝ)) := by rfl
    have href : refined_price FORECAST_ANCHORS MAX_THEORETICAL_BTC_PRICE 2024 100000 2070 1
        = MAX_THEORETICAL_BTC_PRICE := by
      simp only [refined_price]
      rw [if_neg (by simp)]
      rw [interp_beyond_last FORECAST_ANCHORS MAX_THEORETICAL_BTC_PRICE 2024 100000 (by decide)
        h1 h2 (by decide) (show (2024 : ℤ) < 2070 by norm_num)
        (show (2050 : ℤ) < 2070 by norm_num)]
      have hc1 : ((2050 - 2040 : ℤ) : ℝ) = 10 := by norm_num
      have hc2 : ((2070 - 2050 : ℤ) : ℝ) = 20 := by norm_num
      rw [hc1, hc2]
      have harg : Real.log ((6000000 : ℝ) / 2500000) / 10 * 20
          = Real.log (((6000000 : ℝ) / 2500000) ^ (2 : ℕ)) := by
        rw [Real.log_pow]
        push_cast
        ring
      rw [harg, Real.exp_log (by positivity)]
      have hval : (6000000 : ℝ) * (((6000000 : ℝ) / 2500000) ^ (2 : ℕ)) = 34560000 := by
        norm_num
      rw [hval, MAX_THEORETICAL_BTC_PRICE,
        min_eq_right (by norm_num : (22000000 : ℝ) ≤ 34560000)]
    have hvol : (1.332 : ℝ) ≤ add_bitcoin_volatility 2070 1 MAX_THEORETICAL_BTC_PRICE := by
      simp only [add_bitcoin_volatility]
      rw [if_neg (by decide), if_pos (by decide)]
      have s1 := Real.neg_one_le_sin (((2070 * 100 + 1 : ℤ) : ℝ) * 0.1)
      have s2 := Real.neg_one_le_sin (((2070 * 100 + 1 : ℤ) : ℝ) * 0.23)
      have s3 := Real.neg_one_le_sin (((2070 * 100 + 1 : ℤ) : ℝ) * 0.37)
      have hfac : (1.332 : ℝ) ≤
          (1.0 + (Real.sin (((2070 * 100 + 1 : ℤ) : ℝ) * 0.1) * 0.15 +
            Real.sin (((2070 * 100 + 1 : ℤ) : ℝ) * 0.23) * 0.08 +
            Real.sin (((2070 * 100 + 1 : ℤ) : ℝ) * 0.37) * 0.05 + 0.02)) * 1.8 := by
        nlinarith
      refine le_trans (le_min (by norm_num) hfac) (le_max_right _ _)
    have hcore : calculate_future_price_core FORECAST_ANCHORS MAX_THEORETICAL_BTC_PRICE
        2024 100000 2070 1
        = MAX_THEORETICAL_BTC_PRICE *
            add_bitcoin_volatility 2070 1 MAX_THEORETICAL_BTC_PRICE := by
      simp only [calculate_future_price_core, href]
    rw [hcore]
    have hmaxpos : (0 : ℝ) < MAX_THEORETICAL_BTC_PRICE := by
      rw [MAX_THEORETICAL_BTC_PRICE]
      norm_num
    nlinarith

/-- C2 witness: concrete instance of the 2x-cap bound at the repository
configuration (June 2035). -/
theorem C2_witness :
    calculate_future_price_core FORECAST_ANCHORS MAX_THEORETICAL_BTC_PRICE 2024 100000 2035 6
      ≤ 2 * MAX_THEORETICAL_BTC_PRICE :=
  C2_volatility_after_cap.2.1 FORECAST_ANCHORS MAX_THEORETICAL_BTC_PRICE 2024 100000 2035 6
    (by norm_num) (by rw [MAX_THEORETICAL_BTC_PRICE]; norm_num)
    (by
      intro q hq
      simp only [FORECAST_ANCHORS, List.mem_cons, List.not_mem_nil, or_false] at hq
      rcases hq with rfl | rfl | rfl <;> norm_num)
    (by simp [FORECAST_ANCHORS])
    (by norm_num) (by norm_num)

end BtcDashboard
